import Mathlib

/-!
Verification of the task parser and scheduler of the studybot daily planner
(source: `app.py`, functions `parse_task_line` and `schedule_tasks`).

Strings are modelled over their character lists (ASCII behaviour of the
Python string methods `split`, `strip`, `isdigit`, `int`, `upper`).
Wall-clock times are modelled as minutes since midnight (`Nat`); the
`datetime` values in the source only ever contribute their `%H:%M`
rendering and their order, both of which the minute count determines.
The Python builtin `sorted` with a key function is a stable sort
comparing keys; it is embedded as an insertion sort (stable) using the
lexicographic comparison of the key tuples, which computes the same list.
`strptime` with format string HH:MM is embedded as a partial parse
returning `Option`, and `schedule_tasks` (which raises on a malformed
window bound) accordingly returns `Option`: `none` models the format
error, `some` the schedule list.
-/

namespace StudyBot

/-- One parsed task record: the tuple returned by `parse_task_line`
(name, duration minutes, priority letter, deadline text). -/
structure Task where
  name : String
  duration : Nat
  priority : String
  deadline : String
deriving Repr, DecidableEq

/-- One row of the schedule: the dict appended by `schedule_tasks`
(keys Task, Priority, Start, End, Deadline); `stop` stands for the
source key "End". -/
structure ScheduleEntry where
  task : String
  priority : String
  start : String
  stop : String
  deadline : String
deriving Repr, DecidableEq

/-- Python `str.split(sep)` for a one-character separator: splits on every
occurrence, keeping empty pieces; the empty string yields `[""]`. -/
def splitCharAux (sep : Char) (acc : List Char) : List Char → List String
  | [] => [String.mk acc.reverse]
  | c :: rest =>
    if c = sep then String.mk acc.reverse :: splitCharAux sep [] rest
    else splitCharAux sep (c :: acc) rest

def splitChar (sep : Char) (s : String) : List String :=
  splitCharAux sep [] s.data

/-- ASCII whitespace for `str.strip`. -/
def isSpace (c : Char) : Bool :=
  c = ' ' || c = '\t' || c = '\n' || c = '\r'

/-- Python `str.strip()`: drop whitespace from both ends. -/
def pyStrip (s : String) : String :=
  String.mk (((s.data.dropWhile isSpace).reverse.dropWhile isSpace).reverse)

/-- Python `str.upper()` (ASCII letters). -/
def pyUpper (s : String) : String :=
  String.mk (s.data.map Char.toUpper)

def digitsToNat (cs : List Char) : Nat :=
  cs.foldl (fun n c => 10 * n + (c.toNat - 48)) 0

/-- Python `int(s)` guarded by `s.isdigit()` (ASCII decimal digits):
`some` of the decimal value when `s` is a nonempty all-digit string,
otherwise `none`. -/
def pyParseIntDigits (s : String) : Option Nat :=
  if s.data ≠ [] ∧ s.data.all Char.isDigit then some (digitsToNat s.data)
  else none

/-- The comma fields of an input line, each stripped:
`[p.strip() for p in line.split(",")]`. -/
def fields (line : String) : List String :=
  (splitChar ',' line).map pyStrip

/-- `parse_task_line` from the source: name is the first field (the
`"Task"` default covers the empty-fields case), duration is the second
field parsed when it is all digits else 60, priority is the third field
upper-cased else `"M"`, deadline is the fourth field else `""`. -/
def parse_task_line (line : String) : Task :=
  let parts := fields line
  { name := match parts with
      | [] => "Task"
      | n :: _ => n
    duration := ((parts[1]?).bind pyParseIntDigits).getD 60
    priority := ((parts[2]?).map pyUpper).getD "M"
    deadline := (parts[3]?).getD "" }

/-- `pri_order.get(p, 1)` for the dict mapping H to 0, M to 1, L to 2:
lookup with default rank 1 for any other priority string. -/
def pri_order (p : String) : Nat :=
  if p = "H" then 0 else if p = "M" then 1 else if p = "L" then 2 else 1

/-- `deadline_key` from the source: `(1, "23:59")` for an empty deadline,
`(0, dl)` otherwise. -/
def deadline_key (dl : String) : Nat × String :=
  if dl = "" then (1, "23:59") else (0, dl)

/-- The sort key of the source: `(deadline_key(t[3]), pri_order.get(t[2], 1))`. -/
def codeKey (t : Task) : (Nat × String) × Nat :=
  (deadline_key t.deadline, pri_order t.priority)

/-- Python string `<`: lexicographic comparison of the code points, a
proper prefix comparing smaller. -/
def charListLt : List Char → List Char → Bool
  | [], [] => false
  | [], _ :: _ => true
  | _ :: _, [] => false
  | c :: cs, d :: ds =>
    if c.toNat < d.toNat then true
    else if d.toNat < c.toNat then false
    else charListLt cs ds

def strLt (a b : String) : Bool := charListLt a.data b.data

/-- Lexicographic comparison of key tuples, the order Python uses to
compare the nested key tuples. -/
def keyLe (x y : (Nat × String) × Nat) : Bool :=
  if x.1.1 < y.1.1 then true
  else if y.1.1 < x.1.1 then false
  else if strLt x.1.2 y.1.2 then true
  else if strLt y.1.2 x.1.2 then false
  else decide (x.2 ≤ y.2)

def codeLe (a b : Task) : Bool := keyLe (codeKey a) (codeKey b)

/-- Stable insertion into an already sorted list: an element is placed
before the first element it compares `le` to, hence after every earlier
element with an equal key. -/
def orderedInsertB (le : Task → Task → Bool) (a : Task) : List Task → List Task
  | [] => [a]
  | b :: l => if le a b then a :: b :: l else b :: orderedInsertB le a l

/-- Stable insertion sort; agrees with Python `sorted` (also stable)
under the same comparison. -/
def insertionSortB (le : Task → Task → Bool) : List Task → List Task
  | [] => []
  | a :: l => orderedInsertB le a (insertionSortB le l)

/-- `tasks_sorted` from the source: stable sort by `codeKey`. -/
def tasks_sorted (tasks : List Task) : List Task :=
  insertionSortB codeLe tasks

/-- `datetime.strptime(s, "%H:%M")`, as minutes since midnight: one or two
digit hour at most 23, a colon, one or two digit minute at most 59,
nothing else; any other shape raises, modelled as `none`. -/
def parseHHMM (s : String) : Option Nat :=
  match splitChar ':' s with
  | [h, m] =>
    match pyParseIntDigits h, pyParseIntDigits m with
    | some hv, some mv =>
      if h.length ≤ 2 ∧ m.length ≤ 2 ∧ hv ≤ 23 ∧ mv ≤ 59 then
        some (60 * hv + mv)
      else none
    | _, _ => none
  | _ => none

def pad2 (n : Nat) : String :=
  if n < 10 then "0" ++ toString n else toString n

/-- `dt.strftime("%H:%M")` of the datetime `m` minutes after midnight of
the notional day (hours roll over modulo 24 as the datetime rolls days). -/
def fmtTime (m : Nat) : String :=
  pad2 (m / 60 % 24) ++ ":" ++ pad2 (m % 60)

/-- `dl or "—"`: the em-dash sentinel replaces an empty deadline. -/
def renderDeadline (dl : String) : String :=
  if dl = "" then "—" else dl

/-- The entry appended on the placed branch of the loop. -/
def placedEntry (t : Task) (current : Nat) : ScheduleEntry :=
  { task := t.name
    priority := t.priority
    start := fmtTime current
    stop := fmtTime (current + t.duration)
    deadline := renderDeadline t.deadline }

/-- The entry appended on the overflow branch of the loop. -/
def overflowEntry (t : Task) : ScheduleEntry :=
  { task := t.name ++ " (Overflow)"
    priority := t.priority
    start := "—"
    stop := "—"
    deadline := renderDeadline t.deadline }

/-- The placement loop of `schedule_tasks`: `current` is the cursor, and
for each task the candidate end `current + duration` either fits
(`≤ end_dt`: placed entry, cursor advances) or does not (overflow entry,
cursor unchanged). -/
def scheduleGo (end_dt : Nat) : Nat → List Task → List ScheduleEntry
  | _, [] => []
  | current, t :: rest =>
    if current + t.duration ≤ end_dt then
      placedEntry t current :: scheduleGo end_dt (current + t.duration) rest
    else
      overflowEntry t :: scheduleGo end_dt current rest

/-- `schedule_tasks` from the source: parse both window bounds (a failure
raises before the loop runs, so no entries are produced), then sort and
run the placement loop from `start_dt`. -/
def schedule_tasks (tasks : List Task) (work_start work_end : String) :
    Option (List ScheduleEntry) :=
  match parseHHMM work_start, parseHHMM work_end with
  | some start_dt, some end_dt => some (scheduleGo end_dt start_dt (tasks_sorted tasks))
  | _, _ => none

/-- Priority rank as the spec words it: High 0, Medium 1, Low 2; any
other letter is outside the spec ordering (given a rank no source task
has, so that agreement with the code is proved, not assumed). -/
def claimRank (p : String) : Nat :=
  if p = "H" then 0 else if p = "M" then 1 else if p = "L" then 2 else 3

/-- The sort key as the spec words it: primary "has a deadline" (with a
deadline first), secondary the deadline text with `"23:59"` standing in
for a missing one, tertiary the priority rank. -/
def claimKey (t : Task) : (Nat × String) × Nat :=
  ((if t.deadline ≠ "" then 0 else 1,
    if t.deadline = "" then "23:59" else t.deadline),
   claimRank t.priority)

def claimLe (a b : Task) : Bool := keyLe (claimKey a) (claimKey b)

/-- The (start, end) minute pairs of the tasks the loop places, in
placement order. -/
def placedIntervals (end_dt : Nat) : Nat → List Task → List (Nat × Nat)
  | _, [] => []
  | current, t :: rest =>
    if current + t.duration ≤ end_dt then
      (current, current + t.duration) :: placedIntervals end_dt (current + t.duration) rest
    else
      placedIntervals end_dt current rest

/-- The intervals form a chain: the first starts at the cursor, each next
one starts where the previous ended, and every end is at most `end_dt`. -/
def chainB (end_dt : Nat) : Nat → List (Nat × Nat) → Bool
  | _, [] => true
  | c, (a, b) :: rest => decide (a = c) && decide (b ≤ end_dt) && chainB end_dt b rest

/-- The (Start, End) strings of the non-overflow entries of a schedule. -/
def placedTimes (es : List ScheduleEntry) : List (String × String) :=
  es.filterMap (fun en => if en.start = "—" then none else some (en.start, en.stop))

theorem scheduleGo_length (end_dt : Nat) (l : List Task) :
    ∀ c : Nat, (scheduleGo end_dt c l).length = l.length := by
  induction l with
  | nil => intro c; rfl
  | cons t rest ih =>
    intro c
    by_cases hfit : c + t.duration ≤ end_dt <;> simp [scheduleGo, hfit, ih]

theorem orderedInsertB_length (le : Task → Task → Bool) (a : Task) (l : List Task) :
    (orderedInsertB le a l).length = l.length + 1 := by
  induction l with
  | nil => rfl
  | cons b l ih =>
    by_cases hc : le a b <;> simp [orderedInsertB, hc, ih]

theorem insertionSortB_length (le : Task → Task → Bool) (l : List Task) :
    (insertionSortB le l).length = l.length := by
  induction l with
  | nil => rfl
  | cons a l ih => simp [insertionSortB, orderedInsertB_length, ih]

/-- C1: for every task list and every well-formed work window,
`schedule_tasks` returns exactly as many entries as there are input tasks
(each task yields exactly one entry, placed or overflow); with no tasks
the schedule is empty. -/
theorem c1_cardinality (tasks : List Task) (ws we : String) (out : List ScheduleEntry)
    (h : schedule_tasks tasks ws we = some out) : out.length = tasks.length := by
  cases hs : parseHHMM ws with
  | none => simp [schedule_tasks, hs] at h
  | some s =>
    cases he : parseHHMM we with
    | none => simp [schedule_tasks, hs, he] at h
    | some e =>
      simp only [schedule_tasks, hs, he, Option.some_inj] at h
      rw [← h, scheduleGo_length, tasks_sorted, insertionSortB_length]

theorem c1_cardinality_witness :
    (scheduleGo 600 540 (tasks_sorted [⟨"T", 120, "M", ""⟩])).length = 1 :=
  c1_cardinality [⟨"T", 120, "M", ""⟩] "09:00" "10:00" _ (by rfl)

/-- C3: each step of the placement loop: when the candidate end
`current + duration` does not exceed the window end (equality allowed) the
task is placed at `[current, current + duration)` and the cursor advances
to the candidate end; otherwise an overflow entry (name annotated, times
the unscheduled sentinel) is emitted and the cursor stays, so the rest of
the loop runs from the same cursor and a later shorter task may fit. -/
theorem c3_greedy_step (end_dt current : Nat) (t : Task) (rest : List Task) :
    (current + t.duration ≤ end_dt →
      scheduleGo end_dt current (t :: rest) =
        placedEntry t current :: scheduleGo end_dt (current + t.duration) rest) ∧
    (end_dt < current + t.duration →
      scheduleGo end_dt current (t :: rest) =
        overflowEntry t :: scheduleGo end_dt current rest) := by
  constructor
  · intro h; simp [scheduleGo, h]
  · intro h; simp [scheduleGo, Nat.not_le.mpr h]

theorem c3_greedy_step_witness :
    scheduleGo 600 540 [⟨"T", 120, "M", ""⟩] = [overflowEntry ⟨"T", 120, "M", ""⟩] :=
  (c3_greedy_step 600 540 ⟨"T", 120, "M", ""⟩ []).2 (by decide)

/-- C4: on window 09:00–18:00 with tasks A (120 min, H, deadline 12:00),
B (30 min, M, deadline 10:30), C (60 min, L, no deadline), the processing
order is B, A, C and the placements are B 09:00–09:30, A 09:30–11:30,
C 11:30–12:30, with no overflow entries. -/
theorem c4_concrete_example :
    tasks_sorted [⟨"A", 120, "H", "12:00"⟩, ⟨"B", 30, "M", "10:30"⟩, ⟨"C", 60, "L", ""⟩] =
      [⟨"B", 30, "M", "10:30"⟩, ⟨"A", 120, "H", "12:00"⟩, ⟨"C", 60, "L", ""⟩] ∧
    schedule_tasks [⟨"A", 120, "H", "12:00"⟩, ⟨"B", 30, "M", "10:30"⟩, ⟨"C", 60, "L", ""⟩]
        "09:00" "18:00" =
      some [⟨"B", "M", "09:00", "09:30", "10:30"⟩,
            ⟨"A", "H", "09:30", "11:30", "12:00"⟩,
            ⟨"C", "L", "11:30", "12:30", "—"⟩] := by
  decide

/-- C5: the scheduling call fails (returns no entries at all) exactly when
one of the window bounds does not parse as HH:MM; in particular the tasks,
and so their (possibly malformed) deadline strings, can never cause a
scheduling-time failure, since the failure condition does not depend on
them. -/
theorem c5_window_format_error (tasks : List Task) (ws we : String) :
    schedule_tasks tasks ws we = none ↔ (parseHHMM ws = none ∨ parseHHMM we = none) := by
  cases hs : parseHHMM ws <;> cases he : parseHHMM we <;> simp [schedule_tasks, hs, he]

/-- C9: `schedule_tasks` is deterministic: two calls with identical task
lists and identical window bounds return identical entry lists. -/
theorem c9_deterministic (tasks1 tasks2 : List Task) (ws1 ws2 we1 we2 : String)
    (ht : tasks1 = tasks2) (hs : ws1 = ws2) (he : we1 = we2) :
    schedule_tasks tasks1 ws1 we1 = schedule_tasks tasks2 ws2 we2 := by
  rw [ht, hs, he]

theorem c9_deterministic_witness :
    schedule_tasks [⟨"W", 10, "H", ""⟩] "09:00" "10:00" =
      schedule_tasks [⟨"W", 10, "H", ""⟩] "09:00" "10:00" :=
  c9_deterministic _ _ _ _ _ _ rfl rfl rfl

theorem mem_orderedInsertB {le : Task → Task → Bool} {a x : Task} {l : List Task} :
    x ∈ orderedInsertB le a l ↔ x = a ∨ x ∈ l := by
  induction l with
  | nil => simp [orderedInsertB]
  | cons b l ih =>
    by_cases hc : le a b
    · simp [orderedInsertB, hc]
    · simp [orderedInsertB, hc, ih]
      tauto

theorem mem_insertionSortB {le : Task → Task → Bool} {x : Task} {l : List Task} :
    x ∈ insertionSortB le l ↔ x ∈ l := by
  induction l with
  | nil => simp [insertionSortB]
  | cons a l ih => simp [insertionSortB, mem_orderedInsertB, ih]

theorem orderedInsertB_congr {le le2 : Task → Task → Bool} (a : Task) (l : List Task)
    (h : ∀ b ∈ l, le a b = le2 a b) :
    orderedInsertB le a l = orderedInsertB le2 a l := by
  induction l with
  | nil => rfl
  | cons b l ih =>
    simp only [orderedInsertB]
    rw [h b (List.mem_cons_self b l)]
    by_cases hc : le2 a b
    · simp [hc]
    · simp only [hc, if_false, Bool.false_eq_true]
      rw [ih (fun x hx => h x (List.mem_cons_of_mem b hx))]

theorem insertionSortB_congr {le le2 : Task → Task → Bool} (l : List Task)
    (h : ∀ a ∈ l, ∀ b ∈ l, le a b = le2 a b) :
    insertionSortB le l = insertionSortB le2 l := by
  induction l with
  | nil => rfl
  | cons a l ih =>
    simp only [insertionSortB]
    rw [ih (fun x hx y hy =>
      h x (List.mem_cons_of_mem a hx) y (List.mem_cons_of_mem a hy))]
    exact orderedInsertB_congr a _ (fun b hb =>
      h a (List.mem_cons_self a l) b (List.mem_cons_of_mem a (mem_insertionSortB.mp hb)))

theorem claimKey_eq_codeKey (t : Task)
    (h : t.priority = "H" ∨ t.priority = "M" ∨ t.priority = "L") :
    claimKey t = codeKey t := by
  have hrank : claimRank t.priority = pri_order t.priority := by
    rcases h with h | h | h <;> simp [h, claimRank, pri_order]
  by_cases hd : t.deadline = "" <;>
    simp [claimKey, codeKey, deadline_key, hd, hrank]

/-- C2: `schedule_tasks` processes tasks in the order of a stable sort
whose key is, in lexicographic order: has-a-deadline (deadlined tasks
first), the deadline text ascending with `"23:59"` standing in for a
missing deadline, and the priority rank High < Medium < Low; ties keep
the original relative order. Stated for task records, whose priority is
one of H, M, L: the code sort (by the source key) coincides with the
stable insertion sort by the spec key. -/
theorem c2_sort_order (tasks : List Task)
    (h : ∀ t ∈ tasks, t.priority = "H" ∨ t.priority = "M" ∨ t.priority = "L") :
    tasks_sorted tasks = insertionSortB claimLe tasks := by
  unfold tasks_sorted
  refine insertionSortB_congr tasks (fun a ha b hb => ?_)
  unfold codeLe claimLe
  rw [claimKey_eq_codeKey a (h a ha), claimKey_eq_codeKey b (h b hb)]

theorem c2_sort_order_witness :
    tasks_sorted [⟨"P", 30, "L", ""⟩, ⟨"Q", 45, "H", ""⟩, ⟨"R", 15, "M", "11:00"⟩] =
      insertionSortB claimLe
        [⟨"P", 30, "L", ""⟩, ⟨"Q", 45, "H", ""⟩, ⟨"R", 15, "M", "11:00"⟩] :=
  c2_sort_order _ (by decide)

theorem chainB_placedIntervals (end_dt : Nat) (l : List Task) :
    ∀ c : Nat, chainB end_dt c (placedIntervals end_dt c l) = true := by
  induction l with
  | nil => intro c; rfl
  | cons t rest ih =>
    intro c
    by_cases hfit : c + t.duration ≤ end_dt
    · simp [placedIntervals, hfit, chainB, ih]
    · simp [placedIntervals, hfit, ih]

theorem pad2_length_lt60 : ∀ n, n < 60 → (pad2 n).length = 2 := by decide

theorem fmtTime_length (m : Nat) : (fmtTime m).length = 5 := by
  have h1 : (pad2 (m / 60 % 24)).length = 2 :=
    pad2_length_lt60 _ (Nat.lt_of_lt_of_le (Nat.mod_lt _ (by decide)) (by decide))
  have h2 : (pad2 (m % 60)).length = 2 :=
    pad2_length_lt60 _ (Nat.mod_lt _ (by decide))
  simp only [fmtTime, String.length_append, h1, h2]
  decide

theorem fmtTime_ne_dash (m : Nat) : fmtTime m ≠ "—" := by
  intro h
  have h5 := fmtTime_length m
  rw [h] at h5
  exact absurd h5 (by decide)

theorem placedTimes_scheduleGo (end_dt : Nat) (l : List Task) :
    ∀ c : Nat, placedTimes (scheduleGo end_dt c l) =
      (placedIntervals end_dt c l).map (fun p => (fmtTime p.1, fmtTime p.2)) := by
  induction l with
  | nil => intro c; rfl
  | cons t rest ih =>
    intro c
    by_cases hfit : c + t.duration ≤ end_dt
    · have htail := ih (c + t.duration)
      simp only [placedTimes] at htail
      simp [scheduleGo, placedIntervals, hfit, placedTimes, placedEntry,
            fmtTime_ne_dash, htail]
    · have htail := ih c
      simp only [placedTimes] at htail
      simp [scheduleGo, placedIntervals, hfit, placedTimes, overflowEntry, htail]

/-- C10: with a well-formed window, the tasks the loop places occupy a
contiguous chain of intervals: the first starts at the window start, each
next one starts where the previous ended, and every end is at most the
window end; the non-overflow entries of the returned schedule render
exactly those intervals. -/
theorem c10_placed_chain (tasks : List Task) (ws we : String) (s e : Nat)
    (hs : parseHHMM ws = some s) (he : parseHHMM we = some e) :
    chainB e s (placedIntervals e s (tasks_sorted tasks)) = true ∧
    schedule_tasks tasks ws we = some (scheduleGo e s (tasks_sorted tasks)) ∧
    placedTimes (scheduleGo e s (tasks_sorted tasks)) =
      (placedIntervals e s (tasks_sorted tasks)).map
        (fun p => (fmtTime p.1, fmtTime p.2)) := by
  refine ⟨chainB_placedIntervals e _ s, ?_, placedTimes_scheduleGo e _ s⟩
  simp [schedule_tasks, hs, he]

theorem c10_placed_chain_witness :
    chainB 600 540 (placedIntervals 600 540 (tasks_sorted [⟨"W", 30, "H", ""⟩])) = true ∧
    schedule_tasks [⟨"W", 30, "H", ""⟩] "09:00" "10:00" =
      some (scheduleGo 600 540 (tasks_sorted [⟨"W", 30, "H", ""⟩])) ∧
    placedTimes (scheduleGo 600 540 (tasks_sorted [⟨"W", 30, "H", ""⟩])) =
      (placedIntervals 600 540 (tasks_sorted [⟨"W", 30, "H", ""⟩])).map
        (fun p => (fmtTime p.1, fmtTime p.2)) :=
  c10_placed_chain [⟨"W", 30, "H", ""⟩] "09:00" "10:00" 540 600 (by decide) (by decide)

/-- C6 counterexample: the parser applies no membership check against
H, M, L; the line from the claim yields the upper-cased third field "X",
which is none of H, M, L. -/
theorem c6_counterexample :
    ¬ ((parse_task_line "Deep work, not-a-number, X").priority = "H" ∨
       (parse_task_line "Deep work, not-a-number, X").priority = "M" ∨
       (parse_task_line "Deep work, not-a-number, X").priority = "L") := by
  decide

/-- C6 amended: the priority returned by `parse_task_line` is the third
comma field, trimmed and upper-cased, taken verbatim when at least three
fields are present (with no normalization into H, M, L at parse time);
the default "M" applies only when the line has fewer than three fields. -/
theorem c6_amended_priority_verbatim (line : String) :
    ((fields line).length ≤ 2 → (parse_task_line line).priority = "M") ∧
    (∀ p, (fields line)[2]? = some p → (parse_task_line line).priority = pyUpper p) := by
  constructor
  · intro h
    have h2 : (fields line)[2]? = none := List.getElem?_eq_none h
    simp [parse_task_line, h2]
  · intro p hp
    simp [parse_task_line, hp]

theorem c6_amended_priority_verbatim_witness :
    (parse_task_line "Solo").priority = "M" ∧
    (parse_task_line "Deep work, not-a-number, X").priority = pyUpper "X" :=
  ⟨(c6_amended_priority_verbatim "Solo").1 (by decide),
   (c6_amended_priority_verbatim "Deep work, not-a-number, X").2 "X" (by decide)⟩

/-- C7 counterexample: a second field of "0" is all digits, so the parser
returns duration 0, which is not positive. -/
theorem c7_counterexample : ¬ (0 < (parse_task_line "Gym, 0, L").duration) := by
  decide

/-- C7 amended: the duration returned by `parse_task_line` is a natural
number (nonnegative, possibly zero), fully determined by the second
field: when the line has no second field the duration is the default 60,
and when the second field is present the duration is its decimal value
if it consists solely of decimal digits and the default 60 for any other
content (non-numeric text, decimal point, negative sign — none of which
is all-digits); parsing "Gym, 60, L" yields exactly (name "Gym",
duration 60, priority "L", deadline ""). -/
theorem c7_amended_duration :
    parse_task_line "Gym, 60, L" =
      { name := "Gym", duration := 60, priority := "L", deadline := "" } ∧
    ∀ line,
      ((fields line)[1]? = none → (parse_task_line line).duration = 60) ∧
      (∀ d, (fields line)[1]? = some d →
        (parse_task_line line).duration = (pyParseIntDigits d).getD 60) := by
  refine ⟨by decide, fun line => ⟨fun h => ?_, fun d hd => ?_⟩⟩
  · simp [parse_task_line, h]
  · simp [parse_task_line, hd]

theorem c7_amended_duration_witness :
    (parse_task_line "Gym").duration = 60 ∧
    (parse_task_line "Gym, 30, L").duration = (pyParseIntDigits "30").getD 60 ∧
    (parse_task_line "Read, 1.5, M").duration = (pyParseIntDigits "1.5").getD 60 :=
  ⟨(c7_amended_duration.2 "Gym").1 (by decide),
   (c7_amended_duration.2 "Gym, 30, L").2 "30" (by decide),
   (c7_amended_duration.2 "Read, 1.5, M").2 "1.5" (by decide)⟩

/-- C8 counterexample: splitting any string on commas yields at least one
(possibly empty) field, so on the empty line the parser returns the empty
name, not a placeholder. -/
theorem c8_counterexample :
    (parse_task_line "").name = "" ∧ (parse_task_line "").name ≠ "Task" := by
  decide

theorem splitCharAux_ne_nil (sep : Char) (cs : List Char) :
    ∀ acc : List Char, splitCharAux sep acc cs ≠ [] := by
  induction cs with
  | nil => intro acc; simp [splitCharAux]
  | cons c rest ih =>
    intro acc
    by_cases hc : c = sep
    · simp [splitCharAux, hc]
    · simp only [splitCharAux, hc, if_false]
      exact ih _

/-- C8 amended: the name returned by `parse_task_line` is the first comma
field of the line, trimmed, taken verbatim — possibly the empty string,
since splitting always yields at least one field and the placeholder
branch is therefore unreachable; in particular parsing never fails on the
empty line. -/
theorem c8_amended_name_verbatim (line : String) :
    ∃ rest, fields line = (parse_task_line line).name :: rest := by
  cases hf : fields line with
  | nil =>
    exfalso
    have hne := splitCharAux_ne_nil ',' line.data []
    simp only [fields, splitChar, List.map_eq_nil_iff] at hf
    exact hne hf
  | cons n rest =>
    have hn : (parse_task_line line).name = n := by simp [parse_task_line, hf]
    exact ⟨rest, by rw [hn]⟩

end StudyBot
